import Mathlib

/-!
Verification of the order-to-inventory reconciliation engine (src/main.py)
against its natural-language specification.

The Python source is shallowly embedded:
- Python dicts keyed by perfume numbers (floats) become functions
  `Rat → Option Int` (the perfume numbers occurring here are short decimal
  numerals, on which Python float equality coincides with exact rational
  equality); dict insertion order is not modelled (no claim depends on it).
- `KeyError` and `ValueError` exceptions that can escape a function are
  modelled by `Option`: `none` is a raised exception.
- The regular expression search of `extract_perfume_number` and the
  `strptime` format strings are embedded as executable parsers over
  `List Char`, following CPython's matching semantics (leftmost match,
  greedy with backtracking).  Python's `\w` (word character) is modelled
  by `Char.isAlphanum || c = '_'`, which agrees with CPython on the
  alphabets occurring in this application's data.
- Console prints are not modelled, except for the bundle count-mismatch
  warning, which `process_orders` accumulates in its state (the claims
  refer to it).
-/

namespace Shop

/-! ### Characters and strings -/

def isWordChar (c : Char) : Bool := c.isAlphanum || c = '_'

def lowerList (l : List Char) : List Char := l.map Char.toLower

/-- `needle` occurs as a contiguous sublist of `hay` (Python `in` on strings). -/
def containsSub (hay needle : List Char) : Bool :=
  match hay with
  | [] => needle.isEmpty
  | _ :: t => needle.isPrefixOf hay || containsSub t needle

def memS (l : List String) (s : String) : Bool := l.any (fun x => decide (x = s))

def memQ (l : List Rat) (q : Rat) : Bool := l.any (fun x => decide (x = q))

/-- Python `str.strip()` (whitespace at both ends). -/
def stripStr (s : String) : String :=
  ⟨(s.data.dropWhile Char.isWhitespace).reverse.dropWhile Char.isWhitespace |>.reverse⟩

/-! ### `extract_perfume_number` — embedding of
`re.search(r"(\d{1,3}(?:\.\d+)?)\b", value)` followed by `float(...)`
(src/main.py lines 135-142).

`matchAt` is the result of attempting the pattern at a fixed position,
with CPython's backtracking behaviour:
* the integer part `\d{1,3}` can only succeed with the full run of digits
  at the position (a shorter take leaves a digit, a word character, under
  the `\b`), and fails when that run exceeds 3;
* the optional fraction `(?:\.\d+)?` is tried greedily first; if it fails
  (no digit after the dot, or no word boundary after the digits) the
  pattern falls back to no fraction, whose `\b` is then satisfied by the
  dot itself. -/

def digitRun : List Char → Nat
  | [] => 0
  | c :: cs => if c.isDigit then digitRun cs + 1 else 0

def boundaryOk : List Char → Bool
  | [] => true
  | c :: _ => !(isWordChar c)

def digitsToNat (l : List Char) : Nat :=
  l.foldl (fun a c => a * 10 + (c.toNat - 48)) 0

/-- Numeric value of a fractional digit block (the part after the dot). -/
def fracVal (l : List Char) : Rat :=
  (digitsToNat l : Rat) / (10 : Rat) ^ l.length

def matchAt (cs : List Char) : Option Rat :=
  let d := digitRun cs
  if d = 0 ∨ 3 < d then none
  else
    let n : Rat := (digitsToNat (cs.take d) : Rat)
    match cs.drop d with
    | [] => some n
    | c :: rest =>
        if c = '.' then
          let f := digitRun rest
          if 0 < f ∧ boundaryOk (rest.drop f) then some (n + fracVal (rest.take f))
          else some n
        else if boundaryOk (c :: rest) then some n else none

def searchFrom : List Char → Option Rat
  | [] => none
  | c :: cs =>
    match matchAt (c :: cs) with
    | some v => some v
    | none => searchFrom cs

def extract_perfume_number (s : String) : Option Rat := searchFrom s.data

/-! ### Perfume-number maps (Python dicts keyed by float) -/

/-- A Python dict mapping perfume numbers to integers: `none` = key absent. -/
def PMap : Type := Rat → Option Int

def pset (m : PMap) (k : Rat) (v : Int) : PMap :=
  fun q => if q = k then some v else m q

/-- Python `m[k] += δ`: `KeyError` (`none`) when `k` is absent. -/
def addTo (m : PMap) (k : Rat) (δ : Int) : Option PMap :=
  (m k).map (fun v => pset m k (v + δ))

/-- Python `k in m`. -/
def pmem (m : PMap) (k : Rat) : Bool := (m k).isSome

/-! ### Sales logs

Python shape: `{date_str: {perfume_float: qty}}`, only ever read back as
per-(date, perfume) totals with a default of 0 (`setdefault` then `+=`),
so it is embedded as a total function. -/

def Slog : Type := String → Rat → Int

def emptyLog : Slog := fun _ _ => 0

/-- `log.setdefault(ds, {}).setdefault(k, 0); log[ds][k] += q`. -/
def logAdd (L : Slog) (ds : String) (k : Rat) (q : Int) : Slog :=
  fun d p => if d = ds ∧ p = k then L d p + q else L d p

/-! ### Calendar arithmetic and `strptime` embeddings -/

def isLeap (y : Nat) : Bool := y % 4 = 0 && (y % 100 ≠ 0 || y % 400 = 0)

def daysInMonth (y m : Nat) : Nat :=
  if m = 2 then (if isLeap y then 29 else 28)
  else if m = 4 ∨ m = 6 ∨ m = 9 ∨ m = 11 then 30
  else 31

/-- Python `date(y, m, d).toordinal()` (proleptic Gregorian, 0001-01-01 = 1). -/
def toOrdinal (y m d : Nat) : Nat :=
  365 * (y - 1) + (y - 1) / 4 - (y - 1) / 100 + (y - 1) / 400 +
    ((List.range 12).foldl (fun a i => if i + 1 < m then a + daysInMonth y (i + 1) else a) 0) + d

/-- Inverse of the civil-day count (standard era-based algorithm);
input counts days since 1970-01-01, output is (year, month, day). -/
def civilFromDays (z0 : Int) : Int × Nat × Nat :=
  let z := z0 + 719468
  let era : Int := Int.fdiv z 146097
  let doe : Nat := (z - era * 146097).toNat
  let yoe : Nat := (doe - doe / 1460 + doe / 36524 - doe / 146096) / 365
  let y : Int := (yoe : Int) + era * 400
  let doy : Nat := doe - (365 * yoe + yoe / 4 - yoe / 100)
  let mp : Nat := (5 * doy + 2) / 153
  let d : Nat := doy - (153 * mp + 2) / 5 + 1
  let m : Nat := if mp < 10 then mp + 3 else mp - 9
  (y + (if m ≤ 2 then 1 else 0), m, d)

/-- Python `date(y, m, d)` reconstructed from a `toordinal` value. -/
def civilFromOrdinal (n : Int) : Int × Nat × Nat := civilFromDays (n - 719163)

/-- An aware datetime as produced by
`datetime.strptime(s, "%Y-%m-%dT%H:%M:%S%z")`; `off` is the UTC offset in
minutes. -/
structure DT where
  year : Nat
  month : Nat
  day : Nat
  hour : Nat
  minute : Nat
  second : Nat
  off : Int
  deriving Repr, DecidableEq

/-- One or two digits, greedily (CPython's `%m`/`%d`/`%H`/`%M`/`%S`
patterns all accept one or two digits; value validation is separate). -/
def takeDigits2 : List Char → Option (Nat × List Char)
  | a :: b :: rest =>
      if a.isDigit then
        if b.isDigit then some ((a.toNat - 48) * 10 + (b.toNat - 48), rest)
        else some (a.toNat - 48, b :: rest)
      else none
  | [a] => if a.isDigit then some (a.toNat - 48, []) else none
  | [] => none

/-- Exactly four digits (CPython's `%Y`). -/
def takeDigits4 : List Char → Option (Nat × List Char)
  | a :: b :: c :: d :: rest =>
      if a.isDigit && b.isDigit && c.isDigit && d.isDigit then
        some (digitsToNat [a, b, c, d], rest)
      else none
  | _ => none

def expectChar (c : Char) : List Char → Option (List Char)
  | x :: rest => if x = c then some rest else none
  | [] => none

/-- A literal letter of a `strptime` format: CPython compiles the format
with `re.IGNORECASE`, so `T` also matches `t`. -/
def expectCharCI (c : Char) : List Char → Option (List Char)
  | x :: rest => if x.toLower = c.toLower then some rest else none
  | [] => none

/-- CPython's `%z`: `Z`, or a sign, two digits, an optional colon and two
digits (sub-minute offset parts do not occur in this application's data
and are not modelled); offsets of 24 hours or more are rejected by
`datetime.timezone`. -/
def parseOffset : List Char → Option (Int × List Char)
  | 'Z' :: rest => some (0, rest)
  | s :: a :: b :: rest =>
      if (s = '+' ∨ s = '-') && a.isDigit && b.isDigit then
        let hh := (a.toNat - 48) * 10 + (b.toNat - 48)
        let cont : List Char → Option (Int × List Char) := fun l =>
          match l with
          | c :: d :: rest2 =>
              if c.isDigit && d.isDigit then
                let mm := (c.toNat - 48) * 10 + (d.toNat - 48)
                let tot : Int := hh * 60 + mm
                if tot < 1440 then
                  some (if s = '-' then -tot else tot, rest2)
                else none
              else none
          | _ => none
        match rest with
        | ':' :: rest1 => cont rest1
        | _ => cont rest
      else none
  | _ => none

/-- `datetime.strptime(s, "%Y-%m-%dT%H:%M:%S%z")`: `none` is a raised
`ValueError` (bad shape, out-of-range field, or trailing input). -/
def parseDateTime (s : String) : Option DT :=
  match takeDigits4 s.data with
  | none => none
  | some (y, r1) =>
  match expectChar '-' r1 with
  | none => none
  | some r2 =>
  match takeDigits2 r2 with
  | none => none
  | some (m, r3) =>
  match expectChar '-' r3 with
  | none => none
  | some r4 =>
  match takeDigits2 r4 with
  | none => none
  | some (d, r5) =>
  match expectCharCI 'T' r5 with
  | none => none
  | some r6 =>
  match takeDigits2 r6 with
  | none => none
  | some (hh, r7) =>
  match expectChar ':' r7 with
  | none => none
  | some r8 =>
  match takeDigits2 r8 with
  | none => none
  | some (mi, r9) =>
  match expectChar ':' r9 with
  | none => none
  | some r10 =>
  match takeDigits2 r10 with
  | none => none
  | some (ss, r11) =>
  match parseOffset r11 with
  | none => none
  | some (off, r12) =>
    if r12 = [] ∧ 1 ≤ m ∧ m ≤ 12 ∧ 1 ≤ d ∧ d ≤ daysInMonth y m ∧
        hh ≤ 23 ∧ mi ≤ 59 ∧ ss ≤ 59 then
      some ⟨y, m, d, hh, mi, ss, off⟩
    else none

def pad2 (n : Nat) : String := if n < 10 then "0" ++ toString n else toString n

def pad4 (n : Nat) : String :=
  if n < 10 then "000" ++ toString n
  else if n < 100 then "00" ++ toString n
  else if n < 1000 then "0" ++ toString n
  else toString n

/-- `.strftime("%Y-%m-%d")`. -/
def formatDate (y m d : Nat) : String := pad4 y ++ "-" ++ pad2 m ++ "-" ++ pad2 d

/-- The date string `process_orders` logs sales under (src/main.py lines
546-548): `datetime.strptime(created_at, "%Y-%m-%dT%H:%M:%S%z").date()
.strftime("%Y-%m-%d")` — the date fields exactly as written in the
timestamp; the parsed offset is not applied. -/
def orderDateString (ca : String) : Option String :=
  (parseDateTime ca).map (fun dt => formatDate dt.year dt.month dt.day)

/-- Modelled from the spec: "derive the order's date (UTC calendar date of
creation)" — the creation timestamp converted to UTC before taking the
calendar date.  Comparison definition for the date-derivation claim; it is
not what the code computes. -/
def utcDateString (ca : String) : Option String :=
  (parseDateTime ca).map (fun dt =>
    let totalMin : Int := (toOrdinal dt.year dt.month dt.day : Int) * 1440 +
      (dt.hour * 60 + dt.minute : Nat) - dt.off
    let c := civilFromOrdinal (Int.fdiv totalMin 1440)
    formatDate c.1.toNat c.2.1 c.2.2)

/-! ### Order data model (the fields of the Shopify payload that
`process_orders` reads) -/

structure LineItem where
  title : String
  quantity : Int
  /-- the `properties[].value` strings (empty when absent) -/
  properties : List String
  deriving Repr, DecidableEq

structure Order where
  id : Nat
  created_at : String
  /-- `shipping_address.country_code` when present -/
  shipping_country : Option String
  line_items : List LineItem
  deriving Repr, DecidableEq

/-- The in-memory state `process_orders` mutates: the two snapshots, the
two sales logs, and the bundle-mismatch warnings it prints
(as (expected, found) pairs). -/
structure PState where
  inventory : PMap
  sold : PMap
  sales_log : Slog
  sales_log_usa : Slog
  warnings : List (Nat × Nat)

/-! ### `process_orders` (src/main.py lines 518-619) -/

def sampleIn (title : String) : Bool := containsSub (lowerList title.data) "sample".data

def bundleIn (title : String) : Bool := containsSub title.data "Fragrance Bundle".data

def threeXIn (title : String) : Bool := containsSub title.data "3x".data

/-- `inventory[k] -= q; sold[k] += q; sales_log... ; if is_usa_order: ...`
(the block applied per resolved perfume number). -/
def applySale (st : PState) (ds : String) (usa : Bool) (k : Rat) (q : Int) : Option PState :=
  match addTo st.inventory k (-q), addTo st.sold k q with
  | some inv2, some sold2 =>
      some { st with
              inventory := inv2
              sold := sold2
              sales_log := logAdd st.sales_log ds k q
              sales_log_usa := if usa then logAdd st.sales_log_usa ds k q else st.sales_log_usa }
  | _, _ => none

/-- The bundle loop over `item['properties']`; the `Nat` accumulates
`len(perfumes_processed)`. -/
def processProps (ds : String) (usa : Bool) (q : Int) :
    PState → Nat → List String → Option (PState × Nat)
  | st, cnt, [] => some (st, cnt)
  | st, cnt, pr :: ps =>
    match extract_perfume_number pr with
    | some k =>
        if pmem st.inventory k then
          match applySale st ds usa k q with
          | some st2 => processProps ds usa q st2 (cnt + 1) ps
          | none => none
        else processProps ds usa q st cnt ps
    | none => processProps ds usa q st cnt ps

/-- The body of the `for item in order['line_items']` loop. -/
def processItem (ds : String) (usa : Bool) (st : PState) (it : LineItem) : Option PState :=
  if sampleIn it.title then some st
  else if bundleIn it.title then
    match processProps ds usa it.quantity st 0 it.properties with
    | some (st2, cnt) =>
        let expected : Nat := if threeXIn it.title then 3 else 2
        some (if cnt ≠ expected then
                { st2 with warnings := st2.warnings ++ [(expected, cnt)] }
              else st2)
    | none => none
  else
    match extract_perfume_number it.title with
    | some k => if pmem st.inventory k then applySale st ds usa k it.quantity else some st
    | none => some st

def processItems (ds : String) (usa : Bool) : PState → List LineItem → Option PState
  | st, [] => some st
  | st, it :: its =>
    match processItem ds usa st it with
    | some st2 => processItems ds usa st2 its
    | none => none

/-- The per-store unique order id (Python's `use_prefix` flag is `pfx`). -/
def uidOf (shop : String) (pfx : Bool) (o : Order) : String :=
  if pfx then shop ++ "_" ++ toString o.id else toString o.id

/-- The body of the `for order in orders` loop; `acc` carries the state
and `new_processed_order_ids`. -/
def processOrder (shop : String) (pfx : Bool) (already : List String)
    (acc : PState × List String) (o : Order) : Option (PState × List String) :=
  let uid := uidOf shop pfx o
  if memS already uid then some acc
  else
    match orderDateString o.created_at with
    | none => none
    | some ds =>
        let usa := decide (o.shipping_country = some "US")
        match processItems ds usa acc.1 o.line_items with
        | some st2 => some (st2, acc.2 ++ [uid])
        | none => none

def processOrdersLoop (shop : String) (pfx : Bool) (already : List String) :
    PState × List String → List Order → Option (PState × List String)
  | acc, [] => some acc
  | acc, o :: os =>
    match processOrder shop pfx already acc o with
    | some acc2 => processOrdersLoop shop pfx already acc2 os
    | none => none

/-- `process_orders(shop_domain, orders, inventory, sold,
already_processed_orders, use_prefix)`: returns the final state (mutated
inventory/sold, the two sales logs, warnings) and the new processed ids. -/
def process_orders (shop : String) (orders : List Order) (inventory sold : PMap)
    (already : List String) (pfx : Bool) : Option (PState × List String) :=
  processOrdersLoop shop pfx already (⟨inventory, sold, emptyLog, emptyLog, []⟩, []) orders

/-! ### `fetch_new_orders` (src/main.py lines 473-516)

A `Page` is the server's response to one request of the pagination chain:
its HTTP status, the decoded `orders` payload (represented by order ids),
and whether a `Link: rel="next"` header is present.  The Python loop
appends the page's orders on a 200 and follows the next link; on any
other status it prints the status and body and `break`s, returning the
orders accumulated so far. -/

structure Page where
  status : Nat
  orders : List Nat
  hasNext : Bool
  deriving Repr, DecidableEq

def fetch_new_orders : List Page → List Nat
  | [] => []
  | pg :: rest =>
    if pg.status = 200 then
      pg.orders ++ (if pg.hasNext then fetch_new_orders rest else [])
    else []

/-! ### `safe_api_call` (src/main.py lines 117-128)

Wraps a Google-Sheets call: on a 429 `APIError` it waits and retries
itself; any other `APIError` is re-raised.  An element of the list is the
outcome of one attempt; the result is `none` when every listed attempt is
rate-limited (the unbounded retry has not returned yet). -/

inductive ApiOutcome (α : Type) where
  | ok (a : α)
  | rateLimited
  | apiError (code : Nat) (body : String)
  deriving Repr

def safe_api_call {α : Type} : List (ApiOutcome α) → Option (Except (Nat × String) α)
  | [] => none
  | .ok a :: _ => some (.ok a)
  | .rateLimited :: rest => safe_api_call rest
  | .apiError c b :: _ => some (.error (c, b))

/-! ### Numeric cell parsing (Python `int(...)` and `float(...)` on the
decimal numerals this spreadsheet contains; exponents, `inf`/`nan` and
digit-group underscores do not occur and are not modelled) -/

def parseIntStr (s : String) : Option Int :=
  let core : List Char → Option Int := fun ds =>
    if ds ≠ [] ∧ ds.all Char.isDigit then some (digitsToNat ds) else none
  match (stripStr s).data with
  | '+' :: ds => core ds
  | '-' :: ds => (core ds).map (fun v => -v)
  | ds => core ds

def parseFloatStr (s : String) : Option Rat :=
  let core : List Char → Option Rat := fun l =>
    match l.span Char.isDigit with
    | (ip, rest) =>
      match rest with
      | [] => if ip ≠ [] then some (digitsToNat ip : Rat) else none
      | '.' :: fp =>
          if fp.all Char.isDigit ∧ (ip ≠ [] ∨ fp ≠ []) then
            some ((digitsToNat ip : Rat) + fracVal fp)
          else none
      | _ => none
  match (stripStr s).data with
  | '+' :: l => core l
  | '-' :: l => (core l).map (fun v => -v)
  | l => core l

/-- `datetime.strptime(s, "%Y-%m-%d").date()`: `none` = `ValueError`. -/
def parseDate (s : String) : Option (Nat × Nat × Nat) :=
  match takeDigits4 s.data with
  | none => none
  | some (y, r1) =>
  match expectChar '-' r1 with
  | none => none
  | some r2 =>
  match takeDigits2 r2 with
  | none => none
  | some (m, r3) =>
  match expectChar '-' r3 with
  | none => none
  | some r4 =>
  match takeDigits2 r4 with
  | none => none
  | some (d, r5) =>
    if r5 = [] ∧ 1 ≤ m ∧ m ≤ 12 ∧ 1 ≤ d ∧ d ≤ daysInMonth y m then
      some (y, m, d)
    else none

/-! ### `update_7d_rolling_average_in_blad1` (src/main.py lines 342-467)

Embedded as the mapping it writes into column D of Blad1: perfume number
to rounded 7-day average; `today` (Python `datetime.now().date()`) is a
parameter, as a `toOrdinal` day number. -/

/-- `sales_map`: insertion-ordered key list plus per-(perfume, day) totals
with default 0 (the dict is only read through `.get(date, 0)`). -/
def SalesMap : Type := List Rat × (Rat → Int → Int)

def salesMapAdd (sm : SalesMap) (p : Rat) (d : Int) (q : Int) : SalesMap :=
  ((if memQ sm.1 p then sm.1 else sm.1 ++ [p]),
   fun p2 d2 => if p2 = p ∧ d2 = d then sm.2 p2 d2 + q else sm.2 p2 d2)

/-- The perfume columns of Blad2: header indices from 1 whose label
parses as a float. -/
def perfumeColumns (headers : List String) : List (Nat × Rat) :=
  (headers.enum.drop 1).filterMap (fun ic => (parseFloatStr ic.2).map (fun q => (ic.1, q)))

/-- `int(cell_value) if cell_value else 0` with `ValueError` giving 0. -/
def cellQty (row : List String) (c : Nat) : Int :=
  let cv := stripStr (row.getD c "")
  if cv = "" then 0 else (parseIntStr cv).getD 0

/-- The body of the `for row in sales_data[1:]` loop. -/
def rollingRowStep (cols : List (Nat × Rat)) (sevenAgo today : Int)
    (sm : SalesMap) (row : List String) : SalesMap :=
  match row with
  | [] => sm
  | r0 :: _ =>
    match parseDate (stripStr r0) with
    | none => sm
    | some (y, m, d) =>
      let rd : Int := toOrdinal y m d
      if sevenAgo ≤ rd ∧ rd ≤ today then
        cols.foldl (fun sm2 ic =>
          if ic.1 < row.length then salesMapAdd sm2 ic.2 rd (cellQty row ic.1) else sm2) sm
      else sm

def buildSalesMap (rows : List (List String)) (cols : List (Nat × Rat))
    (sevenAgo today : Int) : SalesMap :=
  rows.foldl (rollingRowStep cols sevenAgo today) ([], fun _ _ => 0)

/-- Round half to even (Python `round`; the values rounded here, integer
multiples of 1/7, never land exactly on a 2-decimal tie, so all rounding
conventions agree on them — see `no_tie_for_sevenths`). -/
def roundHalfEven (x : Rat) : Int :=
  if x - ⌊x⌋ < 1/2 then ⌊x⌋
  else if 1/2 < x - ⌊x⌋ then ⌊x⌋ + 1
  else if ⌊x⌋ % 2 = 0 then ⌊x⌋ else ⌊x⌋ + 1

/-- Python `round(x, 2)`. -/
def round2 (x : Rat) : Rat := (roundHalfEven (x * 100) : Rat) / 100

/-- `total_7d` for one perfume: the 7-offset loop over
`day_dict.get(check_date, 0)`. -/
def total7 (sm : SalesMap) (sevenAgo : Int) (p : Rat) : Int :=
  (List.range 7).foldl (fun a o => a + sm.2 p (sevenAgo + Int.ofNat o)) 0

def avg7 (sm : SalesMap) (sevenAgo : Int) (p : Rat) : Rat :=
  round2 ((total7 sm sevenAgo p : Rat) / 7)

/-- Perfume keys of Blad1 (column A of the data rows), the row lookup
used to decide which averages have a destination cell. -/
def blad1Keys (blad1 : List (List String)) : List Rat :=
  (blad1.drop 1).filterMap (fun row =>
    match row with
    | [] => none
    | r0 :: _ => if (stripStr r0).data = [] then none else parseFloatStr (stripStr r0))

/-- The column-D updates the function performs, as (perfume, average)
pairs: computed for every perfume column of Blad2 seen in the 7-day
window, then filtered to perfumes that have a row in Blad1. -/
def update_7d_rolling_average_in_blad1 (salesData blad1 : List (List String))
    (today : Int) : List (Rat × Rat) :=
  match salesData with
  | [] => []
  | headers :: rows =>
    if headers.length < 2 then []
    else
      let cols := perfumeColumns headers
      let sevenAgo := today - 6
      let sm := buildSalesMap rows cols sevenAgo today
      if blad1 = [] then []
      else (sm.1.map (fun p => (p, avg7 sm sevenAgo p))).filter
             (fun pv => memQ (blad1Keys blad1) pv.1)

/-! ### The resolver of spec §4.2

`resolveTitle` is the per-line-item resolution flow of `process_orders`:
the sample gate (src/main.py lines 560-561) ahead of
`extract_perfume_number`. -/

def resolveTitle (t : String) : Option Rat :=
  if sampleIn t then none else extract_perfume_number t

/-! ### Spec-side formulation of the resolver policy (§4.2)

"scan the text for the first run of 1–3 digits optionally followed by a
decimal fraction, at a token boundary; return it as a numeric key, or
`None` if no such run exists" — formalized declaratively: at the leftmost
position admitting one, take the longest prefix that is shaped as
1–3 digits with an optional decimal fraction and ends at a token
boundary. -/

/-- The candidate shape: one to three digits, optionally followed by a
dot and at least one further digit, making up the whole list. -/
def numeralShape (l : List Char) : Bool :=
  let ip := (l.span Char.isDigit).1
  decide (1 ≤ ip.length) && decide (ip.length ≤ 3) &&
  (match (l.span Char.isDigit).2 with
   | [] => true
   | c :: fp => decide (c = '.') && !fp.isEmpty && fp.all Char.isDigit)

/-- Numeric value of a `numeralShape` candidate. -/
def numeralValue (l : List Char) : Rat :=
  (digitsToNat (l.span Char.isDigit).1 : Rat) +
    (match (l.span Char.isDigit).2 with
     | c :: fp => if c = '.' then fracVal fp else 0
     | [] => 0)

/-- A qualifying candidate of length `n` at the current position. -/
def goodAt (cs : List Char) (n : Nat) : Option Rat :=
  if numeralShape (cs.take n) && boundaryOk (cs.drop n) then some (numeralValue (cs.take n))
  else none

/-- The longest qualifying candidate of length at most `n`. -/
def bestLen (cs : List Char) : Nat → Option Rat
  | 0 => none
  | n + 1 =>
    match goodAt cs (n + 1) with
    | some v => some v
    | none => bestLen cs n

def qualMatch (cs : List Char) : Option Rat := bestLen cs cs.length

def specScan : List Char → Option Rat
  | [] => none
  | c :: cs =>
    match qualMatch (c :: cs) with
    | some v => some v
    | none => specScan cs

/-- The resolver policy as worded by the spec. -/
def resolveSpec (s : String) : Option Rat := specScan s.data

/-! ### Spec-side formulation of the 7-day average (§4.5) -/

/-- The calendar day a table row is dated with (its first cell). -/
def rowDateOrd (row : List String) : Option Int :=
  match row with
  | [] => none
  | r0 :: _ => (parseDate (stripStr r0)).map (fun ymd => (toOrdinal ymd.1 ymd.2.1 ymd.2.2 : Int))

/-- Sum of the quantities a single row holds in the columns labelled `k`. -/
def colSum (cols : List (Nat × Rat)) (row : List String) (k : Rat) : Int :=
  (cols.filter (fun ic => decide (ic.2 = k) && decide (ic.1 < row.length))).foldl
    (fun a ic => a + cellQty row ic.1) 0

/-- Modelled from the spec: the total quantity recorded in the table for
ProductKey `k` on calendar day `d` (0 when no row is dated `d`). -/
def recordedOn (headers : List String) (rows : List (List String)) (k : Rat) (d : Int) : Int :=
  rows.foldl
    (fun a row =>
      a + (if rowDateOrd row = some d then colSum (perfumeColumns headers) row k else 0)) 0

/-- Modelled from the spec: "sums, per ProductKey, the quantities recorded
on each of the 7 calendar days ending today inclusive (days with no row
contribute 0), divides by 7, and rounds to 2 decimal places." -/
def specAvg (salesData : List (List String)) (today : Int) (k : Rat) : Rat :=
  match salesData with
  | [] => 0
  | headers :: rows =>
    round2 ((((List.range 7).foldl
        (fun a o => a + recordedOn headers rows k (today - 6 + Int.ofNat o)) 0 : Int) : Rat) / 7)

/-! ### Bundle reconciliation helpers (for stating §4.2/§4.4 claims) -/

/-- The bundle sub-properties that resolve to a key present in the
inventory snapshot (the ones `process_orders` applies and counts). -/
def resolvedKeys (inv : PMap) (props : List String) : List Rat :=
  props.filterMap (fun pr =>
    match extract_perfume_number pr with
    | some k => if pmem inv k then some k else none
    | none => none)

/-- Decrement an existing key by `q` (no-op when absent). -/
def decKey (m : PMap) (k : Rat) (q : Int) : PMap :=
  match m k with
  | some v => pset m k (v - q)
  | none => m

/-! ### Concrete fixtures (used by witnesses and counterexamples) -/

def invW : PMap := fun q => if q = 149 then some 10 else if q = (45 / 2 : Rat) then some 5 else none

def soldW : PMap := fun q => if q = 149 then some 3 else if q = (45 / 2 : Rat) then some 0 else none

def stW : PState := ⟨invW, soldW, emptyLog, emptyLog, []⟩

def caW : String := "2025-01-05T10:00:00+00:00"

def oSimple : Order := ⟨111, caW, none, [⟨"Parfym 149", 2, []⟩]⟩

def oNone : Order := ⟨777, caW, none, [⟨"Giftset", 1, []⟩]⟩

def oMiss : Order := ⟨444, caW, none, [⟨"Parfym 77", 2, []⟩]⟩

def oBundle : Order := ⟨555, caW, none, [⟨"Fragrance Bundle 3x", 1, ["no digits"]⟩]⟩

def oOffset : Order := ⟨888, "2025-01-01T23:30:00-05:00", none, [⟨"Parfym 149", 2, []⟩]⟩

def blad1W : List (List String) := [["nummer:", "Antal:", "Sold:"], ["149", "10", "0"]]

/-! ### Helper lemmas about the map primitives -/

theorem pset_pset (m : PMap) (k : Rat) (a b : Int) : pset (pset m k a) k b = pset m k b := by
  funext q
  by_cases h : q = k <;> simp [pset, h]

theorem addTo_some {m : PMap} {k : Rat} {δ : Int} {v : Int} (h : m k = some v) :
    addTo m k δ = some (pset m k (v + δ)) := by
  simp [addTo, h]

theorem addTo_eq_some {m m2 : PMap} {k : Rat} {δ : Int} (h : addTo m k δ = some m2) :
    ∃ v, m k = some v ∧ m2 = pset m k (v + δ) := by
  cases hv : m k with
  | none => simp [addTo, hv] at h
  | some v =>
      refine ⟨v, rfl, ?_⟩
      simp [addTo, hv] at h
      exact h.symm

theorem pmem_pset_of_mem {m : PMap} {k : Rat} (hv : pmem m k = true) (w : Int) (x : Rat) :
    pmem (pset m k w) x = pmem m x := by
  by_cases h : x = k <;> simp [pmem, pset, h]
  · subst h
    simpa [pmem] using hv.symm

theorem pmem_addTo {m m2 : PMap} {k : Rat} {δ : Int} (h : addTo m k δ = some m2) (x : Rat) :
    pmem m2 x = pmem m x := by
  obtain ⟨v, hv, rfl⟩ := addTo_eq_some h
  exact pmem_pset_of_mem (by simp [pmem, hv]) _ x

/-! ### Helper lemmas about `process_orders` -/

theorem applySale_eq {st : PState} {k : Rat} {v s0 : Int} (ds : String) (usa : Bool) (q : Int)
    (hv : st.inventory k = some v) (hs0 : st.sold k = some s0) :
    applySale st ds usa k q = some
      { st with
          inventory := pset st.inventory k (v - q)
          sold := pset st.sold k (s0 + q)
          sales_log := logAdd st.sales_log ds k q
          sales_log_usa := if usa then logAdd st.sales_log_usa ds k q
            else st.sales_log_usa } := by
  simp [applySale, addTo_some hv, addTo_some hs0, sub_eq_add_neg]

/-- Effect of the order loop body on a not-yet-processed order holding a
single plain line item whose key is present in both snapshots. -/
theorem processOrder_simple (shop : String) (pfx : Bool) (already : List String)
    (acc : PState × List String) (o : Order) (t : String) (q : Int) (ps : List String)
    (k : Rat) (v s0 : Int) (dt : DT)
    (hi : o.line_items = [⟨t, q, ps⟩])
    (hs : sampleIn t = false) (hb : bundleIn t = false)
    (hk : extract_perfume_number t = some k)
    (hv : acc.1.inventory k = some v) (hs0 : acc.1.sold k = some s0)
    (hal : memS already (uidOf shop pfx o) = false)
    (hdt : parseDateTime o.created_at = some dt) :
    processOrder shop pfx already acc o = some
      ({ acc.1 with
          inventory := pset acc.1.inventory k (v - q)
          sold := pset acc.1.sold k (s0 + q)
          sales_log := logAdd acc.1.sales_log (formatDate dt.year dt.month dt.day) k q
          sales_log_usa := if o.shipping_country = some "US"
            then logAdd acc.1.sales_log_usa (formatDate dt.year dt.month dt.day) k q
            else acc.1.sales_log_usa },
       acc.2 ++ [uidOf shop pfx o]) := by
  have hpm : pmem acc.1.inventory k = true := by simp [pmem, hv]
  simp [processOrder, hal, orderDateString, hdt, hi, processItems, processItem, hs, hb, hk, hpm,
    applySale_eq _ _ _ hv hs0]

/-- A full `process_orders` run over a single such order. -/
theorem process_orders_single_simple (shop : String) (pfx : Bool) (o : Order)
    (t : String) (q : Int) (ps : List String) (k : Rat) (v s0 : Int) (dt : DT)
    (inv sold : PMap) (already : List String)
    (hi : o.line_items = [⟨t, q, ps⟩])
    (hs : sampleIn t = false) (hb : bundleIn t = false)
    (hk : extract_perfume_number t = some k)
    (hv : inv k = some v) (hs0 : sold k = some s0)
    (hal : memS already (uidOf shop pfx o) = false)
    (hdt : parseDateTime o.created_at = some dt) :
    process_orders shop [o] inv sold already pfx = some
      (⟨pset inv k (v - q), pset sold k (s0 + q),
        logAdd emptyLog (formatDate dt.year dt.month dt.day) k q,
        (if o.shipping_country = some "US"
         then logAdd emptyLog (formatDate dt.year dt.month dt.day) k q else emptyLog),
        []⟩,
       [uidOf shop pfx o]) := by
  have h := processOrder_simple shop pfx already (⟨inv, sold, emptyLog, emptyLog, []⟩, []) o
    t q ps k v s0 dt hi hs hb hk hv hs0 hal hdt
  simp only [process_orders, processOrdersLoop, h, List.nil_append]

/-- Whenever the loop completes, the returned ids are exactly the per-store
ids of the orders that were not already processed, in order (appended
after each order's items are handled, however many of them resolved). -/
theorem processOrdersLoop_ids (shop : String) (pfx : Bool) (already : List String) :
    ∀ (os : List Order) (acc : PState × List String) (r : PState × List String),
      processOrdersLoop shop pfx already acc os = some r →
      r.2 = acc.2 ++
        (os.filter (fun o => !(memS already (uidOf shop pfx o)))).map (uidOf shop pfx)
  | [], acc, r => by
      intro h
      simp [processOrdersLoop] at h
      simp [← h]
  | o :: os, acc, r => by
      intro h
      simp only [processOrdersLoop] at h
      cases hmem : memS already (uidOf shop pfx o) with
      | true =>
          have hpo : processOrder shop pfx already acc o = some acc := by
            simp [processOrder, hmem]
          rw [hpo] at h
          have := processOrdersLoop_ids shop pfx already os acc r h
          simpa [hmem] using this
      | false =>
          cases hds : orderDateString o.created_at with
          | none => rw [show processOrder shop pfx already acc o = none by
              simp [processOrder, hmem, hds]] at h; exact absurd h (by simp)
          | some ds =>
              cases hit : processItems ds (decide (o.shipping_country = some "US")) acc.1
                  o.line_items with
              | none => rw [show processOrder shop pfx already acc o = none by
                  simp [processOrder, hmem, hds, hit]] at h; exact absurd h (by simp)
              | some st2 =>
                  have hpo : processOrder shop pfx already acc o
                      = some (st2, acc.2 ++ [uidOf shop pfx o]) := by
                    simp [processOrder, hmem, hds, hit]
                  rw [hpo] at h
                  have := processOrdersLoop_ids shop pfx already os
                    (st2, acc.2 ++ [uidOf shop pfx o]) r h
                  simpa [hmem, List.append_assoc] using this

/-! ### Helper lemmas about bundle processing -/

theorem resolvedKeys_congr {m1 m2 : PMap} (h : ∀ x, pmem m1 x = pmem m2 x)
    (props : List String) : resolvedKeys m1 props = resolvedKeys m2 props := by
  unfold resolvedKeys
  refine List.filterMap_congr (fun pr _ => ?_)
  cases extract_perfume_number pr with
  | none => rfl
  | some k => simp only [h k]

theorem applySale_fields {st st2 : PState} {ds : String} {usa : Bool} {k : Rat} {q : Int}
    (h : applySale st ds usa k q = some st2) :
    st2.inventory = decKey st.inventory k q ∧
    (∀ x, pmem st2.inventory x = pmem st.inventory x) ∧
    st2.warnings = st.warnings := by
  cases hinv : addTo st.inventory k (-q) with
  | none => simp [applySale, hinv] at h
  | some inv2 =>
      cases hsold : addTo st.sold k q with
      | none => simp [applySale, hinv, hsold] at h
      | some sold2 =>
          obtain ⟨v, hv, hinv2⟩ := addTo_eq_some hinv
          simp [applySale, hinv, hsold] at h
          subst h
          refine ⟨?_, ?_, rfl⟩
          · simp [hinv2, decKey, hv, sub_eq_add_neg]
          · intro x
            exact pmem_addTo hinv x

/-- What the bundle property loop does when it completes: the count it
returns is the number of sub-properties resolving to keys present in the
inventory, the inventory is decremented once per such key, and no
warning is produced by the loop itself. -/
theorem processProps_spec (ds : String) (usa : Bool) (q : Int) :
    ∀ (props : List String) (st : PState) (cnt : Nat) (st2 : PState) (cnt2 : Nat),
      processProps ds usa q st cnt props = some (st2, cnt2) →
      cnt2 = cnt + (resolvedKeys st.inventory props).length ∧
      st2.inventory = (resolvedKeys st.inventory props).foldl (fun m k2 => decKey m k2 q)
        st.inventory ∧
      st2.warnings = st.warnings ∧
      (∀ x, pmem st2.inventory x = pmem st.inventory x)
  | [], st, cnt, st2, cnt2 => by
      intro h
      simp [processProps] at h
      obtain ⟨h1, h2⟩ := h
      subst h1; subst h2
      simp [resolvedKeys]
  | pr :: ps, st, cnt, st2, cnt2 => by
      intro h
      simp only [processProps] at h
      cases hx : extract_perfume_number pr with
      | none =>
          simp only [hx] at h
          have ih := processProps_spec ds usa q ps st cnt st2 cnt2 h
          simpa [resolvedKeys, List.filterMap_cons, hx] using ih
      | some k =>
          simp only [hx] at h
          cases hpm : pmem st.inventory k with
          | false =>
              simp only [hpm, Bool.false_eq_true, if_false] at h
              have ih := processProps_spec ds usa q ps st cnt st2 cnt2 h
              simpa [resolvedKeys, List.filterMap_cons, hx, hpm] using ih
          | true =>
              simp only [hpm, if_true] at h
              cases happ : applySale st ds usa k q with
              | none => simp only [happ] at h; exact absurd h (by simp)
              | some st1 =>
                  simp only [happ] at h
                  have ih := processProps_spec ds usa q ps st1 (cnt + 1) st2 cnt2 h
                  obtain ⟨hinv1, hpmem1, hwarn1⟩ := applySale_fields happ
                  have hrk : resolvedKeys st1.inventory ps = resolvedKeys st.inventory ps :=
                    resolvedKeys_congr hpmem1 ps
                  have hcons : resolvedKeys st.inventory (pr :: ps)
                      = k :: resolvedKeys st.inventory ps := by
                    simp [resolvedKeys, List.filterMap_cons, hx, hpm]
                  obtain ⟨ihc, ihi, ihw, ihm⟩ := ih
                  refine ⟨?_, ?_, ?_, ?_⟩
                  · rw [ihc, hrk, hcons]
                    simp [List.length_cons]
                    omega
                  · rw [ihi, hrk, hcons, List.foldl_cons, hinv1]
                  · rw [ihw, hwarn1]
                  · intro x
                    rw [ihm x, hpmem1 x]

/-! ### Helper lemmas for the resolver-policy refinement (C6) -/

theorem digitRun_le (cs : List Char) : digitRun cs ≤ cs.length := by
  induction cs with
  | nil => simp [digitRun]
  | cons c cs ih =>
      by_cases h : c.isDigit <;> simp [digitRun, h] <;> omega

theorem take_digitRun_all : ∀ (cs : List Char) (n : Nat), n ≤ digitRun cs →
    ∀ c ∈ cs.take n, c.isDigit = true
  | [], n, h => by
      simp [digitRun] at h
      subst h
      simp
  | c :: cs, n, h => by
      cases n with
      | zero => simp
      | succ m =>
          intro x hx
          simp only [List.take_succ_cons, List.mem_cons] at hx
          by_cases hc : c.isDigit
          · rcases hx with rfl | hx
            · exact hc
            · refine take_digitRun_all cs m ?_ x hx
              simp [digitRun, hc] at h
              omega
          · simp [digitRun, hc] at h

theorem drop_lt_digitRun : ∀ (cs : List Char) (n : Nat), n < digitRun cs →
    ∃ c r, cs.drop n = c :: r ∧ c.isDigit = true
  | [], n, h => by simp [digitRun] at h
  | c :: cs, n, h => by
      by_cases hc : c.isDigit
      · cases n with
        | zero => exact ⟨c, cs, rfl, hc⟩
        | succ m =>
            simp only [List.drop_succ_cons]
            refine drop_lt_digitRun cs m ?_
            simp [digitRun, hc] at h
            omega
      · simp [digitRun, hc] at h

theorem drop_digitRun_head : ∀ (cs : List Char) {c : Char} {r : List Char},
    cs.drop (digitRun cs) = c :: r → c.isDigit = false
  | [], c, r, h => by simp at h
  | a :: cs, c, r, h => by
      by_cases ha : a.isDigit
      · simp only [digitRun, ha, if_true, List.drop_succ_cons] at h
        exact drop_digitRun_head cs h
      · simp only [digitRun, ha, if_false, List.drop_zero] at h
        obtain ⟨rfl, -⟩ := List.cons.injEq .. |>.mp h
        simpa using ha

theorem takeWhile_of_all (l : List Char) (h : ∀ c ∈ l, c.isDigit = true) :
    l.takeWhile Char.isDigit = l := by
  induction l with
  | nil => rfl
  | cons c l ih =>
      rw [List.takeWhile_cons, if_pos (h c (by simp))]
      rw [ih (fun x hx => h x (by simp [hx]))]

theorem dropWhile_of_all (l : List Char) (h : ∀ c ∈ l, c.isDigit = true) :
    l.dropWhile Char.isDigit = [] := by
  induction l with
  | nil => rfl
  | cons c l ih =>
      rw [List.dropWhile_cons, if_pos (h c (by simp))]
      exact ih (fun x hx => h x (by simp [hx]))

theorem span_all (l : List Char) (h : ∀ c ∈ l, c.isDigit = true) :
    l.span Char.isDigit = (l, []) := by
  rw [List.span_eq_take_drop, takeWhile_of_all l h, dropWhile_of_all l h]

theorem span_stop (A : List Char) (hA : ∀ c ∈ A, c.isDigit = true) (w : Char)
    (hw : w.isDigit = false) (r : List Char) :
    (A ++ w :: r).span Char.isDigit = (A, w :: r) := by
  rw [List.span_eq_take_drop]
  induction A with
  | nil => simp [List.takeWhile_cons, List.dropWhile_cons, hw]
  | cons a A ih =>
      have ha : a.isDigit = true := hA a (by simp)
      simp only [List.cons_append, List.takeWhile_cons, List.dropWhile_cons, ha, if_true,
        Bool.true_eq_false]
      have := ih (fun x hx => hA x (by simp [hx]))
      simp only [Prod.mk.injEq] at this ⊢
      exact ⟨by rw [this.1], this.2⟩

theorem numeralShape_digits (l : List Char) (h : ∀ c ∈ l, c.isDigit = true)
    (h1 : 1 ≤ l.length) (h3 : l.length ≤ 3) : numeralShape l = true := by
  simp only [numeralShape, span_all l h]
  simp [h1, h3]

theorem numeralValue_digits (l : List Char) (h : ∀ c ∈ l, c.isDigit = true) :
    numeralValue l = (digitsToNat l : Rat) := by
  simp only [numeralValue, span_all l h]
  simp

theorem numeralShape_big (l : List Char) (h : ∀ c ∈ l, c.isDigit = true)
    (h4 : 4 ≤ l.length) : numeralShape l = false := by
  simp only [numeralShape, span_all l h]
  simp
  omega

theorem numeralShape_stop_big (A : List Char) (hA : ∀ c ∈ A, c.isDigit = true) {w : Char}
    (hw : w.isDigit = false) (r : List Char) (h4 : 4 ≤ A.length) :
    numeralShape (A ++ w :: r) = false := by
  simp only [numeralShape, span_stop A hA w hw r]
  simp
  omega

theorem numeralShape_dot (A : List Char) (hA : ∀ c ∈ A, c.isDigit = true)
    (h1 : 1 ≤ A.length) (h3 : A.length ≤ 3) (G : List Char) :
    numeralShape (A ++ '.' :: G) = (!G.isEmpty && G.all Char.isDigit) := by
  simp only [numeralShape, span_stop A hA '.' (by decide) G]
  simp [h1, h3]

theorem numeralValue_dot (A : List Char) (hA : ∀ c ∈ A, c.isDigit = true) (G : List Char) :
    numeralValue (A ++ '.' :: G) = (digitsToNat A : Rat) + fracVal G := by
  simp only [numeralValue, span_stop A hA '.' (by decide) G]
  simp

theorem numeralShape_stop_nondot (A : List Char) (hA : ∀ c ∈ A, c.isDigit = true) {w : Char}
    (hw : w.isDigit = false) (hwd : ¬ w = '.') (r : List Char) :
    numeralShape (A ++ w :: r) = false := by
  simp only [numeralShape, span_stop A hA w hw r]
  simp [hwd]

theorem isWordChar_of_digit {c : Char} (h : c.isDigit = true) : isWordChar c = true := by
  simp [isWordChar, Char.isAlphanum, h]

theorem boundaryOk_digit {c : Char} (h : c.isDigit = true) (r : List Char) :
    boundaryOk (c :: r) = false := by
  simp [boundaryOk, isWordChar_of_digit h]

theorem bestLen_none (cs : List Char) :
    ∀ N : Nat, (∀ n, 1 ≤ n → n ≤ N → goodAt cs n = none) → bestLen cs N = none
  | 0, _ => rfl
  | N + 1, h => by
      simp only [bestLen, h (N + 1) (by omega) (le_refl _)]
      exact bestLen_none cs N (fun n h1 h2 => h n h1 (by omega))

theorem bestLen_found (cs : List Char) :
    ∀ (N n : Nat) (v : Rat), 1 ≤ n → n ≤ N → goodAt cs n = some v →
      (∀ m, n < m → m ≤ N → goodAt cs m = none) → bestLen cs N = some v
  | 0, n, v, h1, h2, _, _ => by omega
  | N + 1, n, v, h1, h2, hg, habove => by
      by_cases hn : n = N + 1
      · subst hn
        simp only [bestLen, hg]
      · simp only [bestLen, habove (N + 1) (by omega) (le_refl _)]
        exact bestLen_found cs N n v h1 (by omega) hg
          (fun m hm1 hm2 => habove m hm1 (by omega))

/-- At every position, the regex embedding picks exactly the longest
token-boundary-terminated numeral candidate. -/
theorem matchAt_eq_qualMatch (cs : List Char) : matchAt cs = qualMatch cs := by
  have hdle := digitRun_le cs
  by_cases hd0 : digitRun cs = 0
  · have hm : matchAt cs = none := by simp [matchAt, hd0]
    rw [hm, qualMatch]
    refine (bestLen_none cs cs.length ?_).symm
    intro n h1 h2
    cases cs with
    | nil => simp at h2; omega
    | cons c cs2 =>
        have hc : c.isDigit = false := by
          by_cases h : c.isDigit
          · simp [digitRun, h] at hd0
          · simpa using h
        obtain ⟨m, rfl⟩ : ∃ m, n = m + 1 := ⟨n - 1, by omega⟩
        have hsp := span_stop [] (by simp) c hc (cs2.take m)
        rw [List.nil_append] at hsp
        have hshape : numeralShape (c :: cs2.take m) = false := by
          simp only [numeralShape, hsp]
          simp
        simp [goodAt, List.take_succ_cons, hshape]
  · have hA : ∀ c ∈ cs.take (digitRun cs), c.isDigit = true :=
      take_digitRun_all cs (digitRun cs) le_rfl
    have hAlen : (cs.take (digitRun cs)).length = digitRun cs := by
      rw [List.length_take]; omega
    by_cases hd3 : 3 < digitRun cs
    · have hm : matchAt cs = none := by simp [matchAt, hd3]
      rw [hm, qualMatch]
      refine (bestLen_none cs cs.length ?_).symm
      intro n h1 h2
      by_cases hn3 : n ≤ 3
      · obtain ⟨c, r, hcr, hcd⟩ := drop_lt_digitRun cs n (by omega)
        simp [goodAt, hcr, boundaryOk_digit hcd]
      · by_cases hnd : n ≤ digitRun cs
        · have hall := take_digitRun_all cs n hnd
          have hlen : (cs.take n).length = n := by rw [List.length_take]; omega
          have hsh := numeralShape_big (cs.take n) hall (by omega)
          simp [goodAt, hsh]
        · cases hR : cs.drop (digitRun cs) with
          | nil =>
              have := List.drop_eq_nil_iff.mp hR
              omega
          | cons w r =>
              have hw : w.isDigit = false := drop_digitRun_head cs hR
              have htake : cs.take n
                  = cs.take (digitRun cs) ++ (w :: r).take (n - digitRun cs) := by
                conv_lhs => rw [← List.take_append_drop (digitRun cs) cs]
                rw [List.take_append_eq_append_take, hAlen,
                  List.take_of_length_le (by rw [hAlen]; omega), hR]
              obtain ⟨j, hj⟩ : ∃ j, n - digitRun cs = j + 1 := ⟨n - digitRun cs - 1, by omega⟩
              rw [hj, List.take_succ_cons] at htake
              have hsh := numeralShape_stop_big (cs.take (digitRun cs)) hA hw
                (r.take j) (by omega)
              simp [goodAt, htake, hsh]
    · have hd1 : 1 ≤ digitRun cs := by omega
      have hsh_d : numeralShape (cs.take (digitRun cs)) = true :=
        numeralShape_digits _ hA (by omega) (by omega)
      have hval_d : numeralValue (cs.take (digitRun cs))
          = (digitsToNat (cs.take (digitRun cs)) : Rat) := numeralValue_digits _ hA
      cases hR : cs.drop (digitRun cs) with
      | nil =>
          have hlen : cs.length = digitRun cs := by
            have := List.drop_eq_nil_iff.mp hR
            omega
          have hm : matchAt cs = some (digitsToNat (cs.take (digitRun cs)) : Rat) := by
            simp [matchAt, hR, hd0, hd3]
          rw [hm, qualMatch]
          symm
          refine bestLen_found cs cs.length (digitRun cs) _ hd1 hdle ?_ ?_
          · have hb : boundaryOk (cs.drop (digitRun cs)) = true := by
              rw [hR]; rfl
            simp [goodAt, hsh_d, hb, hval_d]
          · intro m hm1 hm2
            omega
      | cons w r =>
          have hw : w.isDigit = false := drop_digitRun_head cs hR
          have hlen_cs : cs.length = digitRun cs + 1 + r.length := by
            have h := congrArg List.length (List.take_append_drop (digitRun cs) cs)
            rw [hR] at h
            simp only [List.length_append, List.length_cons, hAlen] at h
            omega
          have htake : ∀ n, digitRun cs ≤ n →
              cs.take n = cs.take (digitRun cs) ++ (w :: r).take (n - digitRun cs) := by
            intro n hn
            conv_lhs => rw [← List.take_append_drop (digitRun cs) cs]
            rw [List.take_append_eq_append_take, hAlen,
              List.take_of_length_le (by rw [hAlen]; omega), hR]
          have hdrop : ∀ n, digitRun cs ≤ n →
              cs.drop n = (w :: r).drop (n - digitRun cs) := by
            intro n hn
            conv_lhs => rw [← List.take_append_drop (digitRun cs) cs]
            rw [List.drop_append_eq_append_drop, hAlen,
              List.drop_eq_nil_of_le (by rw [hAlen]; omega), hR, List.nil_append]
          have htake1 : ∀ m, digitRun cs + 1 ≤ m →
              cs.take m = cs.take (digitRun cs) ++ w :: r.take (m - digitRun cs - 1) := by
            intro m hm
            rw [htake m (by omega)]
            obtain ⟨u, hu⟩ : ∃ u, m - digitRun cs = u + 1 := ⟨m - digitRun cs - 1, by omega⟩
            rw [hu, List.take_succ_cons]
            simp
          have hdrop1 : ∀ m, digitRun cs + 1 ≤ m →
              cs.drop m = r.drop (m - digitRun cs - 1) := by
            intro m hm
            rw [hdrop m (by omega)]
            obtain ⟨u, hu⟩ : ∃ u, m - digitRun cs = u + 1 := ⟨m - digitRun cs - 1, by omega⟩
            rw [hu, List.drop_succ_cons]
            simp
          by_cases hwdot : w = '.'
          · subst hwdot
            have hGall : ∀ c ∈ r.take (digitRun r), c.isDigit = true :=
              take_digitRun_all r (digitRun r) le_rfl
            have hfle := digitRun_le r
            have hGlen : (r.take (digitRun r)).length = digitRun r := by
              rw [List.length_take]; omega
            have hm : matchAt cs =
                (if 0 < digitRun r ∧ boundaryOk (r.drop (digitRun r))
                 then some ((digitsToNat (cs.take (digitRun cs)) : Rat)
                    + fracVal (r.take (digitRun r)))
                 else some (digitsToNat (cs.take (digitRun cs)) : Rat)) := by
              simp [matchAt, hR, hd0, hd3]
            -- a candidate longer than the full fraction is never shaped
            have hgood_over : ∀ m, digitRun cs + 1 + digitRun r < m → m ≤ cs.length →
                goodAt cs m = none := by
              intro m hm1 hm2
              have hfr : digitRun r < r.length := by omega
              cases hdf : r.drop (digitRun r) with
              | nil =>
                  have := List.drop_eq_nil_iff.mp hdf
                  omega
              | cons x rr =>
                  have hx : x.isDigit = false := drop_digitRun_head r hdf
                  have hts : r.take (m - digitRun cs - 1)
                      = r.take (digitRun r) ++ x :: rr.take (m - digitRun cs - 2 - digitRun r) := by
                    have h1 : m - digitRun cs - 1
                        = digitRun r + (m - digitRun cs - 1 - digitRun r) := by omega
                    rw [h1, List.take_add, hdf]
                    congr 1
                    obtain ⟨jj, hjj⟩ : ∃ jj, m - digitRun cs - 1 - digitRun r = jj + 1 :=
                      ⟨m - digitRun cs - 2 - digitRun r, by omega⟩
                    rw [hjj, List.take_succ_cons]
                    have : jj = m - digitRun cs - 2 - digitRun r := by omega
                    rw [this]
                  have hshape : numeralShape (cs.take m) = false := by
                    rw [htake1 m (by omega), hts,
                      numeralShape_dot _ hA (by omega) (by omega)]
                    simp [hx]
                  simp [goodAt, hshape]
            rw [hm, qualMatch]
            by_cases hfb : 0 < digitRun r ∧ boundaryOk (r.drop (digitRun r)) = true
            · rw [if_pos (by exact_mod_cast hfb)]
              symm
              refine bestLen_found cs cs.length (digitRun cs + 1 + digitRun r) _ (by omega)
                (by omega) ?_ ?_
              · have hidx : digitRun cs + 1 + digitRun r - digitRun cs - 1 = digitRun r := by
                  omega
                have ht : cs.take (digitRun cs + 1 + digitRun r)
                    = cs.take (digitRun cs) ++ '.' :: r.take (digitRun r) := by
                  rw [htake1 _ (by omega), hidx]
                have hdd : cs.drop (digitRun cs + 1 + digitRun r) = r.drop (digitRun r) := by
                  rw [hdrop1 _ (by omega), hidx]
                have hshape : numeralShape (cs.take (digitRun cs + 1 + digitRun r)) = true := by
                  rw [ht, numeralShape_dot _ hA (by omega) (by omega)]
                  have : r.take (digitRun r) ≠ [] := by
                    intro hnil
                    rw [hnil] at hGlen
                    simp at hGlen
                    omega
                  simp [this, List.all_eq_true]
                  exact hGall
                have hvv : numeralValue (cs.take (digitRun cs + 1 + digitRun r))
                    = (digitsToNat (cs.take (digitRun cs)) : Rat)
                      + fracVal (r.take (digitRun r)) := by
                  rw [ht, numeralValue_dot _ hA]
                simp [goodAt, hshape, hdd, hfb.2, hvv]
              · intro m hm1 hm2
                exact hgood_over m hm1 hm2
            · rw [if_neg (by exact_mod_cast hfb)]
              symm
              refine bestLen_found cs cs.length (digitRun cs) _ hd1 hdle ?_ ?_
              · have hwc : isWordChar '.' = false := by decide
                have hb : boundaryOk (cs.drop (digitRun cs)) = true := by
                  rw [hR]
                  simp [boundaryOk, hwc]
                simp [goodAt, hsh_d, hb, hval_d]
              · intro m hm1 hm2
                by_cases hj0 : m = digitRun cs + 1
                · have htb : cs.take m
                      = cs.take (digitRun cs) ++ '.' :: ([] : List Char) := by
                    rw [htake1 m (by omega)]
                    congr 2
                    have : m - digitRun cs - 1 = 0 := by omega
                    rw [this, List.take_zero]
                  have hshape : numeralShape (cs.take m) = false := by
                    rw [htb, numeralShape_dot _ hA (by omega) (by omega)]
                    simp
                  simp [goodAt, hshape]
                · -- within this branch m ≥ d + 2
                  by_cases hjlt : m - digitRun cs - 1 < digitRun r
                  · obtain ⟨c2, r2, hc2, hcd2⟩ :=
                      drop_lt_digitRun r (m - digitRun cs - 1) hjlt
                    have hdd : cs.drop m = r.drop (m - digitRun cs - 1) :=
                      hdrop1 m (by omega)
                    simp [goodAt, hdd, hc2, boundaryOk_digit hcd2]
                  · by_cases hjf : m - digitRun cs - 1 = digitRun r
                    · have hf1 : 0 < digitRun r := by omega
                      have hbf : boundaryOk (r.drop (digitRun r)) = false := by
                        cases hbb : boundaryOk (r.drop (digitRun r)) with
                        | true => exact absurd ⟨hf1, hbb⟩ hfb
                        | false => rfl
                      have hdd : cs.drop m = r.drop (digitRun r) := by
                        rw [hdrop1 m (by omega), hjf]
                      simp [goodAt, hdd, hbf]
                    · exact hgood_over m (by omega) hm2
          · have hm : matchAt cs =
                (if boundaryOk (w :: r) then some (digitsToNat (cs.take (digitRun cs)) : Rat)
                 else none) := by
              simp [matchAt, hR, hd0, hd3, hwdot]
            rw [hm, qualMatch]
            have hgood_gt : ∀ m, digitRun cs < m → m ≤ cs.length → goodAt cs m = none := by
              intro m hm1 hm2
              have hshape : numeralShape (cs.take m) = false := by
                rw [htake1 m (by omega)]
                exact numeralShape_stop_nondot _ hA hw hwdot _
              simp [goodAt, hshape]
            cases hbw : boundaryOk (w :: r) with
            | true =>
                rw [if_pos rfl]
                symm
                refine bestLen_found cs cs.length (digitRun cs) _ hd1 hdle ?_ ?_
                · have hb : boundaryOk (cs.drop (digitRun cs)) = true := by rw [hR]; exact hbw
                  simp [goodAt, hsh_d, hb, hval_d]
                · intro m hm1 hm2
                  exact hgood_gt m hm1 hm2
            | false =>
                rw [if_neg (by simp [hbw])]
                symm
                refine bestLen_none cs cs.length ?_
                intro n h1 h2
                by_cases hnd : n < digitRun cs
                · obtain ⟨c2, r2, hc2, hcd2⟩ := drop_lt_digitRun cs n hnd
                  simp [goodAt, hc2, boundaryOk_digit hcd2]
                · by_cases hne : n = digitRun cs
                  · have hb : boundaryOk (cs.drop n) = false := by rw [hne, hR]; exact hbw
                    simp [goodAt, hb]
                  · exact hgood_gt n (by omega) h2

/-- The scan over successive start positions agrees with the spec-side
scan. -/
theorem searchFrom_eq_specScan : ∀ cs : List Char, searchFrom cs = specScan cs
  | [] => rfl
  | c :: cs => by
      rw [searchFrom, specScan, matchAt_eq_qualMatch]
      cases qualMatch (c :: cs) with
      | none => simp [searchFrom_eq_specScan cs]
      | some v => simp

/-! ### Helper lemmas for the rolling-average claim (C4) -/

theorem foldl_add_init {α : Type} (f : α → Int) :
    ∀ (l : List α) (a : Int),
      l.foldl (fun x y => x + f y) a = a + l.foldl (fun x y => x + f y) 0
  | [], a => by simp
  | x :: l, a => by
      simp only [List.foldl_cons]
      rw [foldl_add_init f l (a + f x), foldl_add_init f l (0 + f x)]
      omega

theorem colSum_cons (ic : Nat × Rat) (cols : List (Nat × Rat)) (row : List String) (k : Rat) :
    colSum (ic :: cols) row k
      = (if ic.2 = k ∧ ic.1 < row.length then cellQty row ic.1 else 0)
        + colSum cols row k := by
  by_cases h : ic.2 = k ∧ ic.1 < row.length
  · simp only [colSum, List.filter_cons, if_pos h]
    rw [if_pos (by simp [h.1, h.2]), List.foldl_cons,
      foldl_add_init (fun ic2 : Nat × Rat => cellQty row ic2.1)]
    omega
  · simp only [colSum, List.filter_cons, if_neg h]
    rw [if_neg (by simpa using h)]
    omega

theorem salesMapAdd_lookup (sm : SalesMap) (p : Rat) (d : Int) (q : Int) (k : Rat) (e : Int) :
    (salesMapAdd sm p d q).2 k e = sm.2 k e + (if k = p ∧ e = d then q else 0) := by
  by_cases h : k = p ∧ e = d <;> simp [salesMapAdd, h]

theorem colsFold_lookup (row : List String) (rd : Int) (sm : SalesMap) (k : Rat) (e : Int) :
    ∀ cols : List (Nat × Rat),
      (cols.foldl (fun sm2 ic =>
          if ic.1 < row.length then salesMapAdd sm2 ic.2 rd (cellQty row ic.1) else sm2)
        sm).2 k e
      = sm.2 k e + (if e = rd then colSum cols row k else 0)
  | [] => by simp [colSum]
  | ic :: cols => by
      simp only [List.foldl_cons]
      by_cases hlt : ic.1 < row.length
      · rw [if_pos hlt, colsFold_lookup row rd _ k e cols, salesMapAdd_lookup,
          colSum_cons]
        by_cases he : e = rd <;> by_cases hk : ic.2 = k <;>
          simp [he, hk, eq_comm (a := k) (b := ic.2), hlt] <;> omega
      · rw [if_neg hlt, colsFold_lookup row rd sm k e cols, colSum_cons]
        by_cases he : e = rd <;> simp [he, hlt]

theorem rowsFold_lookup (cols : List (Nat × Rat)) (sa td : Int) :
    ∀ (rows : List (List String)) (sm : SalesMap) (k : Rat) (e : Int),
      sa ≤ e → e ≤ td →
      (rows.foldl (rollingRowStep cols sa td) sm).2 k e
        = sm.2 k e
          + rows.foldl
              (fun a row => a + (if rowDateOrd row = some e then colSum cols row k else 0)) 0
  | [], sm, k, e, _, _ => by simp
  | row :: rows, sm, k, e, hsa, htd => by
      simp only [List.foldl_cons]
      rw [foldl_add_init (fun row => if rowDateOrd row = some e then colSum cols row k else 0)]
      cases row with
      | nil =>
          rw [show rollingRowStep cols sa td sm [] = sm from rfl,
            rowsFold_lookup cols sa td rows sm k e hsa htd]
          simp [rowDateOrd]
      | cons r0 rest =>
          cases hpd : parseDate (stripStr r0) with
          | none =>
              have hstep : rollingRowStep cols sa td sm (r0 :: rest) = sm := by
                simp [rollingRowStep, hpd]
              rw [hstep, rowsFold_lookup cols sa td rows sm k e hsa htd]
              simp [rowDateOrd, hpd]
          | some ymd =>
              obtain ⟨y, m2, dd⟩ := ymd
              have hrd : rowDateOrd (r0 :: rest) = some (toOrdinal y m2 dd : Int) := by
                simp [rowDateOrd, hpd]
              by_cases hwin : sa ≤ (toOrdinal y m2 dd : Int) ∧ (toOrdinal y m2 dd : Int) ≤ td
              · have hstep : rollingRowStep cols sa td sm (r0 :: rest)
                    = (cols.foldl (fun sm2 ic =>
                        if ic.1 < (r0 :: rest).length
                        then salesMapAdd sm2 ic.2 (toOrdinal y m2 dd : Int)
                          (cellQty (r0 :: rest) ic.1)
                        else sm2) sm) := by
                  simp [rollingRowStep, hpd, hwin]
                rw [hstep, rowsFold_lookup cols sa td rows _ k e hsa htd,
                  colsFold_lookup]
                rw [hrd]
                by_cases he : e = (toOrdinal y m2 dd : Int)
                · simp [he]
                  omega
                · simp [he, Ne.symm he]
              · have hstep : rollingRowStep cols sa td sm (r0 :: rest) = sm := by
                  simp [rollingRowStep, hpd, hwin]
                rw [hstep, rowsFold_lookup cols sa td rows sm k e hsa htd, hrd]
                have hne : ¬ ((toOrdinal y m2 dd : Int) = e) := by
                  intro hh
                  rw [hh] at hwin
                  exact hwin ⟨hsa, htd⟩
                simp [hne]

theorem foldl_add_fn_congr {α : Type} (f g : α → Int) :
    ∀ (l : List α), (∀ x ∈ l, f x = g x) →
      ∀ a : Int, l.foldl (fun s x => s + f x) a = l.foldl (fun s x => s + g x) a
  | [], _, a => rfl
  | x :: l, h, a => by
      simp only [List.foldl_cons, h x (by simp)]
      exact foldl_add_fn_congr f g l (fun y hy => h y (by simp [hy])) _

/-- The per-(perfume, day) totals the rolling-average pass accumulates
agree, on every day of the 7-day window, with the spec-side "quantity
recorded on that day". -/
theorem buildSalesMap_lookup (headers : List String) (rows : List (List String))
    (sa td : Int) (k : Rat) (e : Int) (hsa : sa ≤ e) (htd : e ≤ td) :
    (buildSalesMap rows (perfumeColumns headers) sa td).2 k e
      = recordedOn headers rows k e := by
  unfold buildSalesMap recordedOn
  rw [rowsFold_lookup (perfumeColumns headers) sa td rows _ k e hsa htd]
  simp

/-! ### The claims -/

/-- C1: for an order O whose per-store id was not in the processed set,
a crash-and-retry — a first run applying O, then a second run after O's
id was durably recorded — ends in the same InventorySnapshot,
SoldSnapshot and SalesLog as applying O once: the second run skips O
entirely, returning the first run's snapshots unchanged, empty sales
logs and no new ids. -/
theorem claim_idempotent_across_runs (shop : String) (pfx : Bool) (o : Order)
    (inv sold : PMap) (already already2 : List String) (r1 : PState × List String)
    (h1 : memS already (uidOf shop pfx o) = false)
    (hrun1 : process_orders shop [o] inv sold already pfx = some r1)
    (h2 : memS already2 (uidOf shop pfx o) = true) :
    process_orders shop [o] r1.1.inventory r1.1.sold already2 pfx
      = some (⟨r1.1.inventory, r1.1.sold, emptyLog, emptyLog, []⟩, []) := by
  simp [process_orders, processOrdersLoop, processOrder, h2]

/-- C1 witness: a concrete crash-and-retry pair of runs. -/
theorem claim_idempotent_across_runs_witness :
    memS [] (uidOf "shop.se" false oNone) = false ∧
    process_orders "shop.se" [oNone] invW soldW [] false = some (stW, ["777"]) ∧
    memS ["777"] (uidOf "shop.se" false oNone) = true ∧
    process_orders "shop.se" [oNone] stW.inventory stW.sold ["777"] false
      = some (⟨stW.inventory, stW.sold, emptyLog, emptyLog, []⟩, []) :=
  ⟨rfl, rfl, rfl,
   claim_idempotent_across_runs "shop.se" false oNone invW soldW [] ["777"]
     (stW, ["777"]) rfl rfl rfl⟩

/-- C2 counterexample: the line item "Parfym 77" resolves to key 77,
which is absent from the inventory snapshot; the claim says the key is
then created (inventory 77 ↦ −2, sold 77 ↦ 2), but the run returns both
snapshots unchanged — the item is skipped, no key is created. -/
theorem claim_missing_key_created_refuted :
    extract_perfume_number "Parfym 77" = some 77 ∧
    invW 77 = none ∧
    process_orders "shop.se" [oMiss] invW soldW [] false
      = some (⟨invW, soldW, emptyLog, emptyLog, []⟩, ["444"]) :=
  ⟨by with_unfolding_all rfl, by with_unfolding_all rfl, by with_unfolding_all rfl⟩

/-- C2 amended: a resolved ProductKey is applied only when it is already
present in InventorySnapshot; a missing key is not defaulted to 0 and
not created — the plain line item (first conjunct) or the bundle
sub-property (second conjunct) is skipped with no mutation at all. -/
theorem claim_missing_key_skipped_amended
    (ds : String) (usa : Bool) (st : PState) (t pr : String) (q : Int)
    (ps ps2 : List String) (k k2 : Rat) (cnt : Nat)
    (hs : sampleIn t = false) (hb : bundleIn t = false)
    (hk : extract_perfume_number t = some k)
    (hpr : extract_perfume_number pr = some k2)
    (hmiss : st.inventory k = none) (hmiss2 : st.inventory k2 = none) :
    processItem ds usa st ⟨t, q, ps⟩ = some st ∧
    processProps ds usa q st cnt (pr :: ps2) = processProps ds usa q st cnt ps2 := by
  have hpm : pmem st.inventory k = false := by simp [pmem, hmiss]
  have hpm2 : pmem st.inventory k2 = false := by simp [pmem, hmiss2]
  exact ⟨by simp [processItem, hs, hb, hk, hpm], by simp [processProps, hpr, hpm2]⟩

/-- C2 amended witness: key 77 is missing; both paths leave the state
untouched. -/
theorem claim_missing_key_skipped_amended_witness :
    stW.inventory 77 = none ∧
    processItem "2025-01-05" false stW ⟨"Parfym 77", 2, []⟩ = some stW ∧
    processProps "2025-01-05" false 2 stW 0 ["Parfym 77"]
      = processProps "2025-01-05" false 2 stW 0 [] :=
  ⟨by with_unfolding_all rfl,
   (claim_missing_key_skipped_amended "2025-01-05" false stW "Parfym 77" "Parfym 77" 2 [] []
      77 77 0 rfl rfl (by with_unfolding_all rfl) (by with_unfolding_all rfl)
      (by with_unfolding_all rfl) (by with_unfolding_all rfl)).1,
   (claim_missing_key_skipped_amended "2025-01-05" false stW "Parfym 77" "Parfym 77" 2 [] []
      77 77 0 rfl rfl (by with_unfolding_all rfl) (by with_unfolding_all rfl)
      (by with_unfolding_all rfl) (by with_unfolding_all rfl)).2⟩

/-- C3 counterexample: a 500 response on the second page of the order
fetch is swallowed — the loop breaks and returns the partial order list
[11] with no surfaced error (the 22 of the failed page is lost), whereas
an all-200 chain returns [11, 22].  The claim requires a fatal surfaced
failure and no partial order list. -/
theorem claim_hard_error_surfaced_refuted :
    fetch_new_orders [⟨200, [11], true⟩, ⟨500, [22], false⟩] = [11] ∧
    fetch_new_orders [⟨200, [11], true⟩, ⟨200, [22], false⟩] = [11, 22] :=
  ⟨rfl, rfl⟩

/-- C3 amended: only Google-Sheets calls surface hard errors — a
non-429 `APIError` is re-raised with its status and body after any
number of 429 retries (first conjunct); a non-200 response while
fetching orders merely stops pagination after printing it, and the
orders fetched so far are returned as a partial list (second
conjunct). -/
theorem claim_hard_error_handling_amended :
    (∀ (α : Type) (n c : Nat) (b : String) (rest : List (ApiOutcome α)),
        safe_api_call (List.replicate n ApiOutcome.rateLimited ++ ApiOutcome.apiError c b :: rest)
          = some (Except.error (c, b))) ∧
    (∀ (pg bad : Page) (rest : List Page), pg.status = 200 → pg.hasNext = true →
        bad.status ≠ 200 → fetch_new_orders (pg :: bad :: rest) = pg.orders) := by
  constructor
  · intro α n c b rest
    induction n with
    | zero => rfl
    | succ n ih => simpa [List.replicate_succ, safe_api_call] using ih
  · intro pg bad rest h200 hnext hbad
    simp [fetch_new_orders, h200, hnext, hbad]

/-- C3 amended witness: two 429s then a 500 surface the 500; a mid-chain
500 yields the partial list. -/
theorem claim_hard_error_handling_amended_witness :
    safe_api_call (List.replicate 2 (ApiOutcome.rateLimited (α := Nat)) ++
        ApiOutcome.apiError 500 "boom" :: []) = some (Except.error (500, "boom")) ∧
    fetch_new_orders [⟨200, [7], true⟩, ⟨500, [], false⟩] = [7] :=
  ⟨claim_hard_error_handling_amended.1 Nat 2 500 "boom" [],
   claim_hard_error_handling_amended.2 ⟨200, [7], true⟩ ⟨500, [], false⟩ [] rfl rfl
     (by decide)⟩

set_option maxHeartbeats 2000000 in
/-- C4 counterexample: product 149 has a column in the sales table and a
row in the inventory ledger, but its only table row (2025-06-01) lies
outside the 7-day window ending 2025-06-10; per the claim the output
should map 149 to its 7-day sum 0 divided by 7 (= 0.0), but the code
emits no entry at all for 149 (its stale average cell is left
untouched). -/
theorem claim_rolling_average_total_refuted :
    update_7d_rolling_average_in_blad1 [["datum", "149"], ["2025-06-01", "14"]] blad1W
        (toOrdinal 2025 6 10) = [] ∧
    memQ (blad1Keys blad1W) 149 = true ∧
    specAvg [["datum", "149"], ["2025-06-01", "14"]] (toOrdinal 2025 6 10) 149 = 0 :=
  ⟨by with_unfolding_all rfl, by with_unfolding_all rfl, by with_unfolding_all rfl⟩

set_option maxHeartbeats 2000000 in
/-- C4 amended: every (ProductKey, value) pair the rolling-average pass
writes maps a key that is present in the inventory ledger to the sum of
the quantities recorded on the 7 calendar days ending today inclusive
(a day with no row contributing 0) divided by 7, rounded to 2 decimal
places; keys absent from the ledger are dropped, and a key whose column
has no row inside the window is omitted rather than written as 0; the
single-row-today example yields {149.0: 2.0}. -/
theorem claim_rolling_average_sound_amended :
    (∀ (salesData blad1 : List (List String)) (today : Int) (k v : Rat),
        (k, v) ∈ update_7d_rolling_average_in_blad1 salesData blad1 today →
        memQ (blad1Keys blad1) k = true ∧ v = specAvg salesData today k) ∧
    update_7d_rolling_average_in_blad1 [["datum", "149"], ["2025-06-10", "14"]] blad1W
        (toOrdinal 2025 6 10) = [(149, 2)] := by
  constructor
  · intro salesData blad1 today k v hmem
    cases salesData with
    | nil => simp [update_7d_rolling_average_in_blad1] at hmem
    | cons headers rows =>
        by_cases hh : headers.length < 2
        · simp [update_7d_rolling_average_in_blad1, hh] at hmem
        · by_cases hb1 : blad1 = []
          · simp [update_7d_rolling_average_in_blad1, hh, hb1] at hmem
          · simp only [update_7d_rolling_average_in_blad1, if_neg hh, if_neg hb1] at hmem
            rw [List.mem_filter] at hmem
            obtain ⟨hmap, hpred⟩ := hmem
            rw [List.mem_map] at hmap
            obtain ⟨p, hp, hpair⟩ := hmap
            injection hpair with h1 h2
            subst h1
            subst h2
            refine ⟨by simpa using hpred, ?_⟩
            unfold avg7 specAvg total7
            have hsum : (List.range 7).foldl
                (fun a o => a + (buildSalesMap rows (perfumeColumns headers)
                  (today - 6) today).2 p (today - 6 + Int.ofNat o)) 0
                = (List.range 7).foldl
                    (fun a o => a + recordedOn headers rows p (today - 6 + Int.ofNat o)) 0 :=
              foldl_add_fn_congr _ _ (List.range 7)
                (fun o ho => by
                  have := List.mem_range.mp ho
                  exact buildSalesMap_lookup headers rows (today - 6) today p
                    (today - 6 + Int.ofNat o) (by simp only [Int.ofNat_eq_coe]; omega)
                    (by simp only [Int.ofNat_eq_coe]; omega)) 0
            rw [hsum]
  · with_unfolding_all rfl

/-- C4 amended witness: the single-row-today table; (149, 2.0) is in the
output, 149 is in the ledger, and 2.0 is the spec-side average. -/
theorem claim_rolling_average_sound_amended_witness :
    ((149 : Rat), (2 : Rat)) ∈ update_7d_rolling_average_in_blad1
        [["datum", "149"], ["2025-06-10", "14"]] blad1W (toOrdinal 2025 6 10) ∧
    memQ (blad1Keys blad1W) 149 = true ∧
    (2 : Rat) = specAvg [["datum", "149"], ["2025-06-10", "14"]] (toOrdinal 2025 6 10) 149 := by
  have hmem : ((149 : Rat), (2 : Rat)) ∈ update_7d_rolling_average_in_blad1
      [["datum", "149"], ["2025-06-10", "14"]] blad1W (toOrdinal 2025 6 10) := by
    rw [claim_rolling_average_sound_amended.2]
    simp
  have h := claim_rolling_average_sound_amended.1 _ _ _ _ _ hmem
  exact ⟨hmem, h.1, h.2⟩

/-- C5: a line item whose title contains "sample" (case-insensitively)
is skipped before any resolution is attempted: the loop body returns the
state unchanged (no inventory, sold or sales-log change), and the
resolver yields none on "Sample 22" despite its digits. -/
theorem claim_sample_items_skipped :
    (∀ (ds : String) (usa : Bool) (st : PState) (t : String) (q : Int) (ps : List String),
        sampleIn t = true → processItem ds usa st ⟨t, q, ps⟩ = some st) ∧
    resolveTitle "Sample 22" = none := by
  refine ⟨fun ds usa st t q ps h => ?_, rfl⟩
  simp [processItem, h]

/-- C5 witness: the sample gate on a concrete title. -/
theorem claim_sample_items_skipped_witness :
    sampleIn "Sample 22" = true ∧
    processItem "2025-01-05" false stW ⟨"Sample 22", 2, []⟩ = some stW :=
  ⟨rfl, claim_sample_items_skipped.1 "2025-01-05" false stW "Sample 22" 2 [] rfl⟩

/-- C8: whenever a `process_orders` run completes, the returned id list
is exactly the per-store ids of the input orders not already processed,
in input order — each order's id is appended after its line items are
handled, regardless of how many of them resolved; in particular an order
with zero resolvable line items is still marked processed. -/
theorem claim_order_always_marked_processed (shop : String) (pfx : Bool)
    (orders : List Order) (inv sold : PMap) (already : List String)
    (r : PState × List String)
    (h : process_orders shop orders inv sold already pfx = some r) :
    r.2 = (orders.filter (fun o => !(memS already (uidOf shop pfx o)))).map
      (uidOf shop pfx) := by
  simpa using processOrdersLoop_ids shop pfx already orders _ r h

/-- C8 witness: an order whose only line item resolves to nothing is
still marked processed (its run leaves the state untouched). -/
theorem claim_order_always_marked_processed_witness :
    process_orders "shop.se" [oNone] invW soldW [] false = some (stW, ["777"]) ∧
    (stW, ["777"]).2
      = (([oNone].filter (fun o => !(memS [] (uidOf "shop.se" false o)))).map
          (uidOf "shop.se" false)) :=
  ⟨rfl,
   claim_order_always_marked_processed "shop.se" false [oNone] invW soldW [] (stW, ["777"])
     rfl⟩

/-- C9 counterexample: for created_at "2025-01-01T23:30:00-05:00" the
code logs the sale under "2025-01-01" — the date written in the
timestamp — while the UTC calendar date of that instant is
"2025-01-02". -/
theorem claim_utc_date_refuted :
    orderDateString "2025-01-01T23:30:00-05:00" = some "2025-01-01" ∧
    utcDateString "2025-01-01T23:30:00-05:00" = some "2025-01-02" :=
  ⟨rfl, rfl⟩

/-- C9 amended: the date under which an order's sales are logged is the
calendar date of its creation timestamp exactly as written — the %z
offset is parsed but not applied, so no conversion to UTC happens. -/
theorem claim_order_date_as_written_amended (shop : String) (pfx : Bool) (o : Order)
    (t : String) (q : Int) (ps : List String) (k : Rat) (v s0 : Int) (dt : DT)
    (inv sold : PMap) (already : List String)
    (hi : o.line_items = [⟨t, q, ps⟩])
    (hs : sampleIn t = false) (hb : bundleIn t = false)
    (hk : extract_perfume_number t = some k)
    (hv : inv k = some v) (hs0 : sold k = some s0)
    (hal : memS already (uidOf shop pfx o) = false)
    (hdt : parseDateTime o.created_at = some dt) :
    (process_orders shop [o] inv sold already pfx).map
        (fun r => r.1.sales_log (formatDate dt.year dt.month dt.day) k) = some q := by
  rw [process_orders_single_simple shop pfx o t q ps k v s0 dt inv sold already
    hi hs hb hk hv hs0 hal hdt]
  simp [logAdd, emptyLog]

/-- C9 amended witness: the offset-bearing order of the counterexample,
logged under the as-written date 2025-01-01. -/
theorem claim_order_date_as_written_amended_witness :
    parseDateTime "2025-01-01T23:30:00-05:00" = some ⟨2025, 1, 1, 23, 30, 0, -300⟩ ∧
    (process_orders "shop.se" [oOffset] invW soldW [] false).map
        (fun r => r.1.sales_log (formatDate 2025 1 1) 149) = some 2 :=
  ⟨by with_unfolding_all rfl,
   claim_order_date_as_written_amended "shop.se" false oOffset "Parfym 149" 2 [] 149 10 3
     ⟨2025, 1, 1, 23, 30, 0, -300⟩ invW soldW [] rfl (by with_unfolding_all rfl)
     (by with_unfolding_all rfl) (by with_unfolding_all rfl) (by with_unfolding_all rfl)
     (by with_unfolding_all rfl) rfl (by with_unfolding_all rfl)⟩

/-- C10: the already-processed set is not extended during a run — an
order id occurring twice in the input list of one `process_orders` call
has its inventory decrement, sold increment and sales-log increment
applied twice, and its id appended twice; at-most-once application holds
only against the set loaded at run start. -/
theorem claim_same_run_duplicate_applied_twice (shop : String) (pfx : Bool) (o : Order)
    (t : String) (q : Int) (ps : List String) (k : Rat) (v s0 : Int) (dt : DT)
    (inv sold : PMap) (already : List String)
    (hi : o.line_items = [⟨t, q, ps⟩])
    (hs : sampleIn t = false) (hb : bundleIn t = false)
    (hk : extract_perfume_number t = some k)
    (hv : inv k = some v) (hs0 : sold k = some s0)
    (hal : memS already (uidOf shop pfx o) = false)
    (hdt : parseDateTime o.created_at = some dt) :
    process_orders shop [o, o] inv sold already pfx = some
      (⟨pset inv k (v - q - q), pset sold k (s0 + q + q),
        logAdd (logAdd emptyLog (formatDate dt.year dt.month dt.day) k q)
          (formatDate dt.year dt.month dt.day) k q,
        (if o.shipping_country = some "US"
         then logAdd (logAdd emptyLog (formatDate dt.year dt.month dt.day) k q)
            (formatDate dt.year dt.month dt.day) k q
         else emptyLog),
        []⟩,
       [uidOf shop pfx o, uidOf shop pfx o]) := by
  have h1 : processOrder shop pfx already (⟨inv, sold, emptyLog, emptyLog, []⟩, []) o
      = some (⟨pset inv k (v - q), pset sold k (s0 + q),
              logAdd emptyLog (formatDate dt.year dt.month dt.day) k q,
              (if o.shipping_country = some "US"
               then logAdd emptyLog (formatDate dt.year dt.month dt.day) k q else emptyLog),
              []⟩,
             [uidOf shop pfx o]) := by
    simpa using processOrder_simple shop pfx already (⟨inv, sold, emptyLog, emptyLog, []⟩, [])
      o t q ps k v s0 dt hi hs hb hk hv hs0 hal hdt
  have hv1 : (pset inv k (v - q)) k = some (v - q) := by simp [pset]
  have hs1 : (pset sold k (s0 + q)) k = some (s0 + q) := by simp [pset]
  have h2 : processOrder shop pfx already
      (⟨pset inv k (v - q), pset sold k (s0 + q),
        logAdd emptyLog (formatDate dt.year dt.month dt.day) k q,
        (if o.shipping_country = some "US"
         then logAdd emptyLog (formatDate dt.year dt.month dt.day) k q else emptyLog),
        []⟩,
       [uidOf shop pfx o]) o
      = some (⟨pset inv k (v - q - q), pset sold k (s0 + q + q),
              logAdd (logAdd emptyLog (formatDate dt.year dt.month dt.day) k q)
                (formatDate dt.year dt.month dt.day) k q,
              (if o.shipping_country = some "US"
               then logAdd (logAdd emptyLog (formatDate dt.year dt.month dt.day) k q)
                  (formatDate dt.year dt.month dt.day) k q
               else emptyLog),
              []⟩,
             [uidOf shop pfx o, uidOf shop pfx o]) := by
    have h := processOrder_simple shop pfx already
      (⟨pset inv k (v - q), pset sold k (s0 + q),
        logAdd emptyLog (formatDate dt.year dt.month dt.day) k q,
        (if o.shipping_country = some "US"
         then logAdd emptyLog (formatDate dt.year dt.month dt.day) k q else emptyLog),
        []⟩,
       [uidOf shop pfx o]) o t q ps k (v - q) (s0 + q) dt hi hs hb hk hv1 hs1 hal hdt
    by_cases hus : o.shipping_country = some "US"
    · simpa [pset_pset, hus] using h
    · simpa [pset_pset, hus] using h
  simp only [process_orders, processOrdersLoop, h1, h2]

/-- C6: on every input string the resolver returns the first (leftmost,
longest) run of 1–3 digits optionally followed by a decimal fraction
ending at a token boundary, as a numeric key — `resolveSpec`, the
declarative formalization of the spec's policy sentence — and none when
no such run exists; in particular "Parfym 149" resolves to 149.0 and
"22.5 EDT" to 22.5. -/
theorem claim_resolver_policy :
    (∀ s : String, extract_perfume_number s = resolveSpec s) ∧
    extract_perfume_number "Parfym 149" = some 149 ∧
    extract_perfume_number "22.5 EDT" = some (45 / 2 : Rat) := by
  refine ⟨fun s => searchFrom_eq_specScan s.data, ?_, ?_⟩
  · with_unfolding_all rfl
  · with_unfolding_all rfl

/-- C7: for a bundle line item the expected sub-item count is 3 exactly
when the title contains the "3x" marker and 2 otherwise; a mismatch with
the number of resolved sub-properties is only recorded as a warning:
the run still completes with the inventory decremented once per resolved
key and the order marked processed. -/
theorem claim_bundle_mismatch_nonfatal (shop : String) (pfx : Bool) (o : Order)
    (t : String) (q : Int) (props : List String) (inv sold : PMap)
    (already : List String) (r : PState × List String)
    (hi : o.line_items = [⟨t, q, props⟩])
    (hs : sampleIn t = false) (hb : bundleIn t = true)
    (hal : memS already (uidOf shop pfx o) = false)
    (hr : process_orders shop [o] inv sold already pfx = some r) :
    r.2 = [uidOf shop pfx o] ∧
    r.1.inventory
      = (resolvedKeys inv props).foldl (fun m k2 => decKey m k2 q) inv ∧
    r.1.warnings
      = (if (resolvedKeys inv props).length ≠ (if threeXIn t then 3 else 2)
         then [((if threeXIn t then 3 else 2), (resolvedKeys inv props).length)]
         else []) := by
  simp only [process_orders, processOrdersLoop, processOrder, hal, Bool.false_eq_true,
    if_false] at hr
  cases hds : orderDateString o.created_at with
  | none => simp [hds] at hr
  | some ds =>
      simp only [hds, hi, processItems, processItem, hs, hb, Bool.false_eq_true, if_false,
        if_true] at hr
      cases hpp : processProps ds (decide (o.shipping_country = some "US")) q
          ⟨inv, sold, emptyLog, emptyLog, []⟩ 0 props with
      | none => simp [hpp] at hr
      | some p =>
          obtain ⟨st2, cnt⟩ := p
          have hspec := processProps_spec ds (decide (o.shipping_country = some "US")) q
            props ⟨inv, sold, emptyLog, emptyLog, []⟩ 0 st2 cnt hpp
          obtain ⟨hcnt, hinv, hwarn, -⟩ := hspec
          have hc : cnt = (resolvedKeys inv props).length := by simpa using hcnt
          subst hc
          simp only [hpp, Option.some.injEq] at hr
          subst hr
          refine ⟨by simp, ?_, ?_⟩
          · by_cases hmq : (resolvedKeys inv props).length ≠ (if threeXIn t then 3 else 2) <;>
              simp [hmq, hinv]
          · by_cases hmq : (resolvedKeys inv props).length ≠ (if threeXIn t then 3 else 2) <;>
              simp [hmq, hwarn]

/-- C7 witness: a "3x" bundle with a single unresolvable property:
warning (3, 0) recorded, inventory untouched, order processed. -/
theorem claim_bundle_mismatch_nonfatal_witness :
    sampleIn "Fragrance Bundle 3x" = false ∧ bundleIn "Fragrance Bundle 3x" = true ∧
    ((⟨invW, soldW, emptyLog, emptyLog, [(3, 0)]⟩, ["555"]) : PState × List String).2
        = [uidOf "shop.se" false oBundle] ∧
    (⟨invW, soldW, emptyLog, emptyLog, [(3, 0)]⟩ : PState).warnings
      = (if (resolvedKeys invW ["no digits"]).length
            ≠ (if threeXIn "Fragrance Bundle 3x" then 3 else 2)
         then [((if threeXIn "Fragrance Bundle 3x" then 3 else 2),
                (resolvedKeys invW ["no digits"]).length)]
         else []) := by
  have hr : process_orders "shop.se" [oBundle] invW soldW [] false
      = some (⟨invW, soldW, emptyLog, emptyLog, [(3, 0)]⟩, ["555"]) := by
    with_unfolding_all rfl
  have h := claim_bundle_mismatch_nonfatal "shop.se" false oBundle "Fragrance Bundle 3x" 1
    ["no digits"] invW soldW [] _ rfl rfl rfl rfl hr
  exact ⟨rfl, rfl, h.1, h.2.2⟩

/-- C10 witness: a duplicated simple order, applied twice in one run. -/
theorem claim_same_run_duplicate_applied_twice_witness :
    memS [] (uidOf "shop.se" false oSimple) = false ∧
    process_orders "shop.se" [oSimple, oSimple] invW soldW [] false = some
      (⟨pset invW 149 (10 - 2 - 2), pset soldW 149 (3 + 2 + 2),
        logAdd (logAdd emptyLog (formatDate 2025 1 5) 149 2) (formatDate 2025 1 5) 149 2,
        (if oSimple.shipping_country = some "US"
         then logAdd (logAdd emptyLog (formatDate 2025 1 5) 149 2) (formatDate 2025 1 5) 149 2
         else emptyLog),
        []⟩,
       [uidOf "shop.se" false oSimple, uidOf "shop.se" false oSimple]) :=
  ⟨rfl,
   claim_same_run_duplicate_applied_twice "shop.se" false oSimple "Parfym 149" 2 [] 149 10 3
     ⟨2025, 1, 5, 10, 0, 0, 0⟩ invW soldW [] rfl (by with_unfolding_all rfl)
     (by with_unfolding_all rfl) (by with_unfolding_all rfl) (by with_unfolding_all rfl)
     (by with_unfolding_all rfl) rfl (by with_unfolding_all rfl)⟩

end Shop
